import Mathlib

/-!
Shallow embedding of the latency-critical core of the `liquidator-rust`
repository, together with proofs checking the natural-language specification
against it.

Modelling conventions, applied uniformly:

* `Address` (20-byte EVM address) is modelled as `Nat`; only equality of
  addresses is ever used by the embedded code.
* `U256` (`alloy::primitives::U256`, a `ruint` 256-bit unsigned integer) is
  modelled as `Nat`.  In release builds ruint arithmetic wraps on overflow
  (matching Rust's primitive integers), so every multiplication the source
  performs on `U256` is taken modulo `2^256` (`u256size`); comparisons,
  saturating subtractions and floor divisions never overflow and are the
  plain `Nat` operations.
* `f64` quantities (`value_usd`, `health_factor`, thresholds) are modelled as
  exact rationals `ℚ`: the formulas proved are the exact arithmetic the
  source expresses; floating-point rounding is outside the model.
* `Instant` / Unix timestamps are `Nat`s, and `Duration` is a `Nat` of
  nanoseconds (`Duration::from_secs s` becomes `s * 10^9`); "now" is passed
  explicitly to functions that call `Instant::now()`/`SystemTime::now()`.
* `DashMap k v` is a total function `k → Option v` (or `k → List v` where the
  source defaults a missing key to an empty vector); `DashSet a` is `a → Bool`.
-/

/-- EVM address, identified by its numeric value. -/
abbrev Address : Type := Nat

/-- The number of values of `U256`: `2^256`. -/
def u256size : Nat := 2 ^ 256

/-- `U256::MAX = 2^256 - 1`. -/
def u256max : Nat := 2 ^ 256 - 1

/-- WAD constant `10^18` from `u256_math.rs`. -/
def WAD : Nat := 10 ^ 18

/-! ### Trigger index (`crates/core/src/trigger_index.rs`) -/

/-- Direction of price movement that triggers liquidation. -/
inductive PriceDirection where
  | Down
  | Up
deriving DecidableEq, Repr

/-- Entry in the trigger index (`TriggerEntry`).  The `current_hf : f64`
field is carried as a rational; it is not read by any embedded function. -/
structure TriggerEntry where
  user : Address
  trigger_price : Nat
  direction : PriceDirection
  current_hf : ℚ
deriving DecidableEq

/-- `TriggerEntry::is_triggered`: whether a move from `old_price` to
`new_price` crosses this trigger. -/
def TriggerEntry.is_triggered (e : TriggerEntry) (old_price new_price : Nat) : Bool :=
  match e.direction with
  | .Down => new_price ≤ e.trigger_price && e.trigger_price < old_price
  | .Up => e.trigger_price ≤ new_price && old_price < e.trigger_price

/-- The trigger index: per-asset list of trigger entries.  The `DashMap` is a
total function defaulting to the empty list, matching
`get_liquidatable_at`'s treatment of a missing key. -/
def TriggerIndex : Type := Address → List TriggerEntry

/-- `TriggerIndex::get_liquidatable_at`: users whose entry on `asset` is
crossed when the price moves from `old_price` to `new_price`. -/
def TriggerIndex.get_liquidatable_at (idx : TriggerIndex) (asset : Address)
    (new_price old_price : Nat) : List Address :=
  ((idx asset).filter fun t => t.is_triggered old_price new_price).map (·.user)

/-- `TriggerIndex::get_affected_users`: all users with a trigger on `asset`. -/
def TriggerIndex.get_affected_users (idx : TriggerIndex) (asset : Address) : List Address :=
  (idx asset).map (·.user)

/-! ### Fixed-point U256 arithmetic (`crates/core/src/u256_math.rs`) -/

/-- `calculate_hf_wad`: health factor in WAD.  `U256::MAX` when debt is zero,
otherwise `(collateral_adjusted_wad * WAD) / debt_wad` with the product
wrapping modulo `2^256` (release-mode ruint multiplication). -/
def calculate_hf_wad (collateral_adjusted_wad debt_wad : Nat) : Nat :=
  if debt_wad = 0 then u256max
  else collateral_adjusted_wad * WAD % u256size / debt_wad

/-! ### Pre-staging pipeline (`crates/core/src/pre_staging.rs`) -/

/-- `price_deviation_exceeds_bps`: whether `|new - old| * 10000 / old`
exceeds `threshold_bps`, with a zero `old_price` treated as stale.  The
product `diff * 10000` wraps modulo `2^256`. -/
def price_deviation_exceeds_bps (old_price new_price threshold_bps : Nat) : Bool :=
  if old_price = 0 then true
  else
    let diff := if old_price < new_price then new_price - old_price else old_price - new_price
    let deviation_bps := diff * 10000 % u256size / old_price
    threshold_bps < deviation_bps

/-- A swap route (`liquidator_api::SwapRoute`), reduced to the fields the
embedded functions read. -/
structure SwapRoute where
  token_in : Address
  token_out : Address
  amount_in : Nat
  expected_output : Nat
deriving DecidableEq

/-- `StagedLiquidation`.  `staged_at`/`valid_until` are instants (`Nat`);
`position_hash` is the 64-bit state hash, carried as an opaque value
(the SipHash itself is not modelled); `encoded_calldata` is the optional
pre-encoded byte string. -/
structure StagedLiquidation where
  user : Address
  collateral_asset : Address
  debt_asset : Address
  debt_to_cover : Nat
  expected_collateral : Nat
  swap_route : SwapRoute
  staged_at : Nat
  price_snapshot : List (Address × Nat)
  valid_until : Nat
  position_hash : Nat
  encoded_calldata : Option (List Nat)
  min_amount_out : Nat
  estimated_gas : Nat

/-- `StagedLiquidation::is_valid`: `Instant::now() < valid_until`, with the
current instant passed explicitly. -/
def StagedLiquidation.is_valid (s : StagedLiquidation) (now : Nat) : Bool :=
  now < s.valid_until

/-- `StagedLiquidation::is_price_stale`.  The source converts a percentage
threshold to basis points (`(threshold_pct * 100.0) as u64`) and then works
in integers; the model takes `threshold_bps` directly.  An entry of the
snapshot with no matching current price is skipped. -/
def StagedLiquidation.is_price_stale (s : StagedLiquidation)
    (current_prices : List (Address × Nat)) (threshold_bps : Nat) : Bool :=
  s.price_snapshot.any fun p =>
    match current_prices.find? (fun q => q.1 = p.1) with
    | some q => price_deviation_exceeds_bps p.2 q.2 threshold_bps
    | none => false

/-- `StagedLiquidation::is_position_changed`. -/
def StagedLiquidation.is_position_changed (s : StagedLiquidation) (current_hash : Nat) : Bool :=
  s.position_hash ≠ current_hash

/-- `StagedValidationResult`. -/
inductive StagedValidationResult where
  | Valid (staged : StagedLiquidation)
  | NotStaged
  | Expired
  | PositionChanged
  | PriceStale

/-- `PreStager::validate_staged`, over the stager's `staged` map.  The source
computes `current_position.compute_state_hash()`; the model receives that
hash (`current_hash`) directly, and the configured percentage threshold as
basis points. -/
def validate_staged (staged : Address → Option StagedLiquidation) (user : Address)
    (current_hash : Nat) (current_prices : List (Address × Nat))
    (threshold_bps : Nat) (now : Nat) : StagedValidationResult :=
  match staged user with
  | none => .NotStaged
  | some s =>
    if ¬ s.is_valid now then .Expired
    else if s.is_position_changed current_hash then .PositionChanged
    else if s.is_price_stale current_prices threshold_bps then .PriceStale
    else .Valid s

/-! ### Heartbeat predictor (`crates/core/src/heartbeat.rs`) -/

/-- `Duration::from_secs`: a `std::time::Duration` is a `Nat` of
nanoseconds. -/
def secsToDur (s : Nat) : Nat := s * 1000000000

/-- `Duration::as_secs`. -/
def durAsSecs (d : Nat) : Nat := d / 1000000000

/-- `HeartbeatPredictor` state.  `last_updates` maps an oracle to its last
`(timestamp, block_number)`; `average_intervals` holds the rolling mean of
the retained observations (present exactly when at least one interval has
been observed, as `update_average` inserts the mean of a non-empty list). -/
structure HeartbeatPredictor where
  last_updates : Address → Option (Nat × Nat)
  observed_intervals : Address → List Nat
  expected_staleness : Address → Option Nat
  average_intervals : Address → Option Nat

/-- `HeartbeatPredictor::get_effective_interval`: the observed average when
its whole-second part is positive, otherwise the configured staleness. -/
def HeartbeatPredictor.get_effective_interval (st : HeartbeatPredictor)
    (oracle : Address) : Option Nat :=
  match st.average_intervals oracle with
  | some observed =>
      if 0 < durAsSecs observed then some observed else st.expected_staleness oracle
  | none => st.expected_staleness oracle

/-- `HeartbeatPredictor::next_expected_update`, reduced to the duration it
places between now and the predicted update: `interval.as_secs()` minus the
elapsed seconds, both subtractions saturating, re-wrapped by
`Duration::from_secs`.  The source returns `Instant::now() + remaining`; the
model keeps `remaining` and passes the current Unix timestamp `now_ts`
explicitly. -/
def HeartbeatPredictor.next_update_remaining (st : HeartbeatPredictor)
    (oracle : Address) (now_ts : Nat) : Option Nat :=
  match st.last_updates oracle with
  | none => none
  | some last =>
    match st.get_effective_interval oracle with
    | none => none
    | some interval =>
      let elapsed := now_ts - last.1
      let remaining := durAsSecs interval - elapsed
      some (secsToDur remaining)

/-- `HeartbeatPredictor::is_update_imminent`: the predicted update lies
strictly less than `threshold` away.  The two `Instant::now()` calls of the
source (inside `next_expected_update` and in the comparison) are collapsed
into the single explicit `now_ts`. -/
def HeartbeatPredictor.is_update_imminent (st : HeartbeatPredictor)
    (oracle : Address) (threshold : Nat) (now_ts : Nat) : Bool :=
  match st.next_update_remaining oracle now_ts with
  | some remaining => remaining < threshold
  | none => false

/-! ### Liquidator execution (`crates/core/src/liquidator.rs`) -/

/-- The string constant `MAX_AMOUNT` (`2^256 - 1` in decimal). -/
def MAX_AMOUNT : String :=
  "115792089237316195423570985008687907853269984665640564039457584007913129639935"

/-- One step of decimal digit accumulation for `from_str_radix`. -/
def decDigit (c : Char) : Option Nat :=
  if '0' ≤ c ∧ c ≤ '9' then some (c.toNat - '0'.toNat) else none

/-- `U256::from_str_radix(s, 10)`: parse a decimal string, `none` on a
non-digit, an empty string, or a value not representable in 256 bits. -/
def from_str_radix10 (s : String) : Option Nat :=
  if s.data.isEmpty then none
  else
    (s.data.foldl (fun acc c => acc.bind fun n => (decDigit c).map fun d => n * 10 + d)
      (some 0)).bind fun n => if n < u256size then some n else none

/-- `Liquidator::calculate_debt_to_cover`: `U256::MAX` (parsed from
`MAX_AMOUNT`, falling back to `max_debt` if parsing failed) when the route's
expected output covers the whole debt, otherwise the expected output. -/
def calculate_debt_to_cover (swap_route : SwapRoute) (max_debt : Nat) : Nat :=
  if max_debt ≤ swap_route.expected_output then
    (from_str_radix10 MAX_AMOUNT).getD max_debt
  else swap_route.expected_output

/-! ### Position model (`crates/core/src/position.rs`) -/

/-- `PositionTier`. -/
inductive PositionTier where
  | Critical
  | Hot
  | Warm
  | Cold
deriving DecidableEq, Repr

/-- The tier-classification thresholds of `BotConfig.tiers`
(`crates/core/src/config/bot.rs`), the `f64` fields as rationals. -/
structure TierConfig where
  critical_hf_threshold : ℚ
  hot_hf_threshold : ℚ
  warm_hf_threshold : ℚ
  critical_trigger_distance_pct : ℚ
  hot_trigger_distance_pct : ℚ
  warm_trigger_distance_pct : ℚ

/-- `PositionTier::from_health_factor`, with the global config passed
explicitly. -/
def PositionTier.from_health_factor (cfg : TierConfig) (hf : ℚ) : PositionTier :=
  if hf < cfg.critical_hf_threshold then .Critical
  else if hf < cfg.hot_hf_threshold then .Hot
  else if hf < cfg.warm_hf_threshold then .Warm
  else .Cold

/-- `PositionTier::from_trigger_distance`. -/
def PositionTier.from_trigger_distance (cfg : TierConfig) (distance_pct : ℚ) : PositionTier :=
  if distance_pct < cfg.critical_trigger_distance_pct then .Critical
  else if distance_pct < cfg.hot_trigger_distance_pct then .Hot
  else if distance_pct < cfg.warm_trigger_distance_pct then .Warm
  else .Cold

/-- `PositionTier::classify`: the source's four-way match combining the two
classifications. -/
def PositionTier.classify (cfg : TierConfig) (hf trigger_distance_pct : ℚ) : PositionTier :=
  let by_hf := PositionTier.from_health_factor cfg hf
  let by_trigger := PositionTier.from_trigger_distance cfg trigger_distance_pct
  match by_hf, by_trigger with
  | .Critical, _ | _, .Critical => .Critical
  | .Hot, _ | _, .Hot => .Hot
  | .Warm, _ | _, .Warm => .Warm
  | _, _ => .Cold

/-- Urgency ordinal of a tier: `Critical` is the most urgent (0), `Cold` the
least (3).  This is the specification's ordering, used to state what
`classify` must compute. -/
def PositionTier.urgency : PositionTier → Nat
  | .Critical => 0
  | .Hot => 1
  | .Warm => 2
  | .Cold => 3

/-- The more urgent of two tiers (the specification side of the claim about
`classify`). -/
def PositionTier.moreUrgent (a b : PositionTier) : PositionTier :=
  if a.urgency ≤ b.urgency then a else b

/-- `CollateralData`, with the derived `value_usd : f64` as a rational. -/
structure CollateralData where
  asset : Address
  amount : Nat
  price : Nat
  decimals : Nat
  value_usd : ℚ
  liquidation_threshold : Nat
  enabled : Bool

/-- `CollateralData::lt_decimal`. -/
def CollateralData.lt_decimal (c : CollateralData) : ℚ :=
  (c.liquidation_threshold : ℚ) / 10000

/-- `CollateralData::risk_adjusted_value`. -/
def CollateralData.risk_adjusted_value (c : CollateralData) : ℚ :=
  c.value_usd * c.lt_decimal

/-- `DebtData`. -/
structure DebtData where
  asset : Address
  amount : Nat
  price : Nat
  decimals : Nat
  value_usd : ℚ

/-- `TrackedPosition`, reduced to the fields the embedded operations read:
`triggers`, `sensitivity`, `last_updated` and `state_hash` are not consulted
by any function modelled here (the state hash enters `validate_staged` as an
explicit value). -/
structure TrackedPosition where
  user : Address
  health_factor : ℚ
  tier : PositionTier
  min_trigger_distance_pct : ℚ
  collaterals : List (Address × CollateralData)
  debts : List (Address × DebtData)

/-- `TrackedPosition::total_debt_usd`. -/
def TrackedPosition.total_debt_usd (p : TrackedPosition) : ℚ :=
  (p.debts.map fun d => d.2.value_usd).sum

/-! ### Sensitivity estimator (`crates/core/src/sensitivity.rs`) -/

/-- `PositionSensitivity`, reduced to the fields the claims concern
(`price_snapshot` and `computed_at` are populated from the oracle map and the
clock and are not read by `compute`/`estimate_hf`). -/
structure PositionSensitivity where
  user : Address
  base_hf : ℚ
  sensitivities : List (Address × ℚ)

/-- Add `s` to the first entry of `l` whose key is `a`, as
`iter_mut().find(...)` followed by `+=` does; `l` is unchanged when no entry
matches. -/
def addFirst (l : List (Address × ℚ)) (a : Address) (s : ℚ) : List (Address × ℚ) :=
  match l with
  | [] => []
  | (b, v) :: rest => if b = a then (b, v + s) :: rest else (b, v) :: addFirst rest a s

/-- One iteration of the debt loop of `PositionSensitivity::compute`: add the
debt coefficient to an existing entry for the asset, or push a new entry. -/
def debtStep (hf total_debt : ℚ) (acc : List (Address × ℚ))
    (d : Address × DebtData) : List (Address × ℚ) :=
  let sensitivity := -hf * d.2.value_usd / total_debt / 100
  if acc.any fun q => q.1 = d.1 then addFirst acc d.1 sensitivity
  else acc ++ [(d.1, sensitivity)]

/-- `PositionSensitivity::compute`: the sensitivity coefficients of a
position.  An empty list when total debt is non-positive; otherwise each
enabled collateral pushes `(value · LT) / D / 100` and each debt folds in
`-HF · value / D / 100` via `debtStep`. -/
def PositionSensitivity.compute (position : TrackedPosition) : PositionSensitivity :=
  let total_debt := position.total_debt_usd
  if total_debt ≤ 0 then
    { user := position.user, base_hf := position.health_factor, sensitivities := [] }
  else
    let collSens := (position.collaterals.filter fun c => c.2.enabled).map fun c =>
      (c.1, c.2.value_usd * c.2.lt_decimal / total_debt / 100)
    { user := position.user
      base_hf := position.health_factor
      sensitivities := position.debts.foldl (debtStep position.health_factor total_debt) collSens }

/-- `PositionSensitivity::estimate_hf`: base HF plus, for each supplied
`(asset, pct_change)`, the first matching coefficient times the change. -/
def PositionSensitivity.estimate_hf (sens : PositionSensitivity)
    (price_changes : List (Address × ℚ)) : ℚ :=
  price_changes.foldl
    (fun hf p =>
      match sens.sensitivities.find? fun q => q.1 = p.1 with
      | some q => hf + q.2 * p.2
      | none => hf)
    sens.base_hf

/-- The coefficient `estimate_hf` reads for asset `a` (first matching entry,
zero when absent). -/
def coeffOf (sens : PositionSensitivity) (a : Address) : ℚ :=
  match sens.sensitivities.find? fun q => q.1 = a with
  | some q => q.2
  | none => 0

/-- Total coefficient mass a sensitivity list assigns to asset `a`: the sum
of every entry with that key. -/
def coeffMass (l : List (Address × ℚ)) (a : Address) : ℚ :=
  ((l.filter fun q => q.1 = a).map fun q => q.2).sum

/-- Specification-side collateral contribution of asset `a`:
`(value_i · LT_i) / D / 100` summed over the enabled collateral entries on
`a`. -/
def specCollCoeff (position : TrackedPosition) (a : Address) : ℚ :=
  ((position.collaterals.filter fun c => c.1 = a ∧ c.2.enabled).map fun c =>
    c.2.value_usd * c.2.lt_decimal / position.total_debt_usd / 100).sum

/-- Specification-side debt contribution of asset `a`:
`-HF · value_j / D / 100` summed over the debt entries on `a`. -/
def specDebtCoeff (position : TrackedPosition) (a : Address) : ℚ :=
  ((position.debts.filter fun d => d.1 = a).map fun d =>
    -position.health_factor * d.2.value_usd / position.total_debt_usd / 100).sum

/-! ### Tiered position tracker (`crates/core/src/position_tracker.rs`) -/

/-- `MAX_CRITICAL_POSITIONS`. -/
def MAX_CRITICAL_POSITIONS : Nat := 64

/-- `TieredPositionTracker`.  The critical tier is the `ArrayVec` as a list
(its capacity bound is enforced by `upsert`); the other tiers and the staged
map are keyed maps; the reverse indices are per-asset user sets.  The
embedded `trigger_index` and the price cache are not part of the tier-store
state the claims quantify over and are omitted. -/
structure TieredPositionTracker where
  critical : List TrackedPosition
  hot : Address → Option TrackedPosition
  warm : Address → Option TrackedPosition
  cold : Address → Option TrackedPosition
  collateral_holders : Address → Address → Bool
  debt_holders : Address → Address → Bool
  staged_txs : Address → Option StagedLiquidation

/-- `TieredPositionTracker::new`. -/
def TieredPositionTracker.new : TieredPositionTracker where
  critical := []
  hot := fun _ => none
  warm := fun _ => none
  cold := fun _ => none
  collateral_holders := fun _ _ => false
  debt_holders := fun _ _ => false
  staged_txs := fun _ => none

/-- `DashMap::insert` on an `Address`-keyed map. -/
def mapInsert (m : Address → Option TrackedPosition) (k : Address)
    (v : TrackedPosition) : Address → Option TrackedPosition :=
  fun u => if u = k then some v else m u

/-- `TieredPositionTracker::remove`: drop the user from every tier store,
from both reverse indices, and from the staged map (the trigger-index removal
is outside the modelled state). -/
def TieredPositionTracker.remove (st : TieredPositionTracker)
    (user : Address) : TieredPositionTracker where
  critical := st.critical.filter fun p => p.user ≠ user
  hot := fun u => if u = user then none else st.hot u
  warm := fun u => if u = user then none else st.warm u
  cold := fun u => if u = user then none else st.cold u
  collateral_holders := fun a u => if u = user then false else st.collateral_holders a u
  debt_holders := fun a u => if u = user then false else st.debt_holders a u
  staged_txs := fun u => if u = user then none else st.staged_txs u

/-- `TieredPositionTracker::update_reverse_indices`: record the user under
every collateral and debt asset of the position. -/
def TieredPositionTracker.update_reverse_indices (st : TieredPositionTracker)
    (position : TrackedPosition) : TieredPositionTracker :=
  { st with
    collateral_holders := fun a u =>
      st.collateral_holders a u ||
        (decide (u = position.user) && position.collaterals.any fun c => c.1 = a)
    debt_holders := fun a u =>
      st.debt_holders a u ||
        (decide (u = position.user) && position.debts.any fun d => d.1 = a) }

/-- `TieredPositionTracker::upsert`: remove any previous entry for the user,
update the reverse indices, then insert into the tier store named by the
position's tier — a Critical position goes to the fixed-capacity buffer when
it has room and spills to the Hot map otherwise. -/
def TieredPositionTracker.upsert (st : TieredPositionTracker)
    (position : TrackedPosition) : TieredPositionTracker :=
  let user := position.user
  let st1 := (st.remove user).update_reverse_indices position
  match position.tier with
  | .Critical =>
      if st1.critical.length < MAX_CRITICAL_POSITIONS then
        { st1 with critical := st1.critical ++ [position] }
      else
        { st1 with hot := mapInsert st1.hot user position }
  | .Hot => { st1 with hot := mapInsert st1.hot user position }
  | .Warm => { st1 with warm := mapInsert st1.warm user position }
  | .Cold => { st1 with cold := mapInsert st1.cold user position }

/-- `TieredPositionTracker::get`: critical buffer first, then the maps. -/
def TieredPositionTracker.get (st : TieredPositionTracker)
    (user : Address) : Option TrackedPosition :=
  match st.critical.find? fun p => p.user = user with
  | some p => some p
  | none =>
    match st.hot user with
    | some p => some p
    | none =>
      match st.warm user with
      | some p => some p
      | none => st.cold user

/-- `TieredPositionTracker::get_tier`. -/
def TieredPositionTracker.get_tier (st : TieredPositionTracker)
    (user : Address) : Option PositionTier :=
  if st.critical.any fun p => p.user = user then some .Critical
  else if (st.hot user).isSome then some .Hot
  else if (st.warm user).isSome then some .Warm
  else if (st.cold user).isSome then some .Cold
  else none

/-- `TieredPositionTracker::re_tier`: reclassify; when the tier changed and
the user is tracked, upsert the updated snapshot. -/
def TieredPositionTracker.re_tier (cfg : TierConfig) (st : TieredPositionTracker)
    (user : Address) (new_hf new_trigger_distance : ℚ) : TieredPositionTracker :=
  let new_tier := PositionTier.classify cfg new_hf new_trigger_distance
  if st.get_tier user = some new_tier then st
  else
    match st.get user with
    | some old_pos =>
        st.upsert { old_pos with
          health_factor := new_hf
          min_trigger_distance_pct := new_trigger_distance
          tier := new_tier }
    | none => st

/-- A tracker operation, for stating invariants over arbitrary operation
sequences. -/
inductive TrackerOp where
  | upsert (position : TrackedPosition)
  | remove (user : Address)
  | re_tier (user : Address) (new_hf new_trigger_distance : ℚ)

/-- Apply one tracker operation. -/
def applyOp (cfg : TierConfig) (st : TieredPositionTracker) : TrackerOp → TieredPositionTracker
  | .upsert p => st.upsert p
  | .remove u => st.remove u
  | .re_tier u hf d => st.re_tier cfg u hf d

/-- Run a sequence of tracker operations from the empty tracker. -/
def runOps (cfg : TierConfig) (ops : List TrackerOp) : TieredPositionTracker :=
  ops.foldl (applyOp cfg) TieredPositionTracker.new

/-- How many of the four tier stores hold `user`. -/
def tierCount (st : TieredPositionTracker) (user : Address) : Nat :=
  (if st.critical.any fun p => p.user = user then 1 else 0) +
  (if (st.hot user).isSome then 1 else 0) +
  (if (st.warm user).isSome then 1 else 0) +
  (if (st.cold user).isSome then 1 else 0)

/-! ### Concrete fixtures for counterexamples and witnesses -/

/-- A concrete swap route. -/
def wRoute : SwapRoute where
  token_in := 1
  token_out := 2
  amount_in := 100
  expected_output := 110

/-- A staged liquidation: staged at 0 with TTL 10, recorded position hash 1,
one snapshot price entry. -/
def wStagedLiq : StagedLiquidation where
  user := 7
  collateral_asset := 1
  debt_asset := 2
  debt_to_cover := 100
  expected_collateral := 110
  swap_route := wRoute
  staged_at := 0
  price_snapshot := [(1, 100)]
  valid_until := 10
  position_hash := 1
  encoded_calldata := none
  min_amount_out := 0
  estimated_gas := 0

/-- A stager map holding `wStagedLiq` for user 7. -/
def wStagedMap : Address → Option StagedLiquidation :=
  fun u => if u = 7 then some wStagedLiq else none

/-- A heartbeat predictor that saw oracle 1 update at Unix second 100 and has
a configured staleness of 60 s and no observed interval. -/
def wHeartbeat : HeartbeatPredictor where
  last_updates := fun o => if o = 1 then some (100, 5) else none
  observed_intervals := fun _ => []
  expected_staleness := fun o => if o = 1 then some (secsToDur 60) else none
  average_intervals := fun _ => none

/-- The `i`-th concrete Critical-tier position (user `i + 1`). -/
def wCriticalPos (i : Nat) : TrackedPosition where
  user := i + 1
  health_factor := 1
  tier := .Critical
  min_trigger_distance_pct := 0
  collaterals := []
  debts := []

/-- A tracker whose Critical buffer is at its capacity of 64. -/
def wFullTracker : TieredPositionTracker :=
  { TieredPositionTracker.new with critical := (List.range 64).map wCriticalPos }

/-- A fresh Critical-tier position for a user not yet tracked. -/
def wNewCritical : TrackedPosition where
  user := 100
  health_factor := 1
  tier := .Critical
  min_trigger_distance_pct := 0
  collaterals := []
  debts := []

/-- A concrete collateral entry: 1000 USDC at $1.00, LT 80 %, enabled. -/
def wCollateral : CollateralData where
  asset := 1
  amount := 1000000000
  price := 100000000
  decimals := 6
  value_usd := 1000
  liquidation_threshold := 8000
  enabled := true

/-- A concrete debt entry: 500 USDT at $1.00. -/
def wDebt : DebtData where
  asset := 2
  amount := 500000000
  price := 100000000
  decimals := 6
  value_usd := 500

/-- A concrete position with HF 1.6: the 1000 USDC collateral against the
500 USDT debt. -/
def wPosition : TrackedPosition where
  user := 9
  health_factor := 8 / 5
  tier := .Warm
  min_trigger_distance_pct := 10
  collaterals := [(1, wCollateral)]
  debts := [(2, wDebt)]

/-!
## Theorems

The claim theorems, their helper lemmas, and the concrete witnesses and
counterexamples.
-/

/-- C1.  A trigger entry is crossed exactly as the specification states —
`Down` with `old > trigger ≥ new`, or `Up` with `old < trigger ≤ new`,
equality on the hit side included — and `get_liquidatable_at` returns
exactly the users of the crossed entries on the asset. -/
theorem trigger_crossing_characterization (idx : TriggerIndex) (asset : Address)
    (old_price new_price : Nat) (e : TriggerEntry) (u : Address) :
    (e.is_triggered old_price new_price = true ↔
      (e.direction = .Down ∧ e.trigger_price < old_price ∧ new_price ≤ e.trigger_price) ∨
      (e.direction = .Up ∧ old_price < e.trigger_price ∧ e.trigger_price ≤ new_price)) ∧
    (u ∈ idx.get_liquidatable_at asset new_price old_price ↔
      ∃ t ∈ idx asset,
        (((t.direction = .Down ∧ t.trigger_price < old_price ∧ new_price ≤ t.trigger_price) ∨
          (t.direction = .Up ∧ old_price < t.trigger_price ∧ t.trigger_price ≤ new_price)) ∧
          t.user = u)) := by
  have key : ∀ t : TriggerEntry, t.is_triggered old_price new_price = true ↔
      (t.direction = .Down ∧ t.trigger_price < old_price ∧ new_price ≤ t.trigger_price) ∨
      (t.direction = .Up ∧ old_price < t.trigger_price ∧ t.trigger_price ≤ new_price) := by
    intro t
    cases h : t.direction <;> simp [TriggerEntry.is_triggered, h, and_comm]
  refine ⟨key e, ?_⟩
  unfold TriggerIndex.get_liquidatable_at
  simp only [List.mem_map, List.mem_filter]
  constructor
  · rintro ⟨t, ⟨ht, htrig⟩, hu⟩
    exact ⟨t, ht, (key t).mp htrig, hu⟩
  · rintro ⟨t, ht, hspec, hu⟩
    exact ⟨t, ⟨ht, (key t).mpr hspec⟩, hu⟩

/-- C6.  `classify` returns the more urgent of the HF-based tier and the
trigger-distance-based tier. -/
theorem classify_is_max_urgency (cfg : TierConfig) (hf distance : ℚ) :
    PositionTier.classify cfg hf distance =
      (PositionTier.from_health_factor cfg hf).moreUrgent
        (PositionTier.from_trigger_distance cfg distance) := by
  cases hhf : PositionTier.from_health_factor cfg hf <;>
    cases htd : PositionTier.from_trigger_distance cfg distance <;>
      simp [PositionTier.classify, PositionTier.moreUrgent, PositionTier.urgency, hhf, htd]

/-- C9 (amended).  `calculate_hf_wad` returns `U256::MAX` on zero debt and
otherwise the floor quotient of the product `collateral · 10^18` taken
modulo `2^256`; whenever that product does not overflow 256 bits this is the
exact quotient `collateral · 10^18 / debt`. -/
theorem calculate_hf_wad_spec (c d : Nat) :
    (d = 0 → calculate_hf_wad c d = u256max) ∧
    (d ≠ 0 → calculate_hf_wad c d = c * WAD % u256size / d) ∧
    (d ≠ 0 → c * WAD < u256size → calculate_hf_wad c d = c * WAD / d) :=
  ⟨fun h => by simp [calculate_hf_wad, h],
   fun h => by simp [calculate_hf_wad, h],
   fun h hlt => by simp [calculate_hf_wad, h, Nat.mod_eq_of_lt hlt]⟩

/-- C9 witness: at 2 USD collateral (WAD) against 1 USD debt (WAD), the
quotient is exact and equals 2 WAD. -/
theorem calculate_hf_wad_spec_witness :
    (10 ^ 18 : Nat) ≠ 0 ∧ 2 * WAD * WAD < u256size ∧
      calculate_hf_wad (2 * WAD) (10 ^ 18) = 2 * WAD * WAD / 10 ^ 18 :=
  ⟨by norm_num, by norm_num [WAD, u256size],
    (calculate_hf_wad_spec (2 * WAD) (10 ^ 18)).2.2 (by norm_num)
      (by norm_num [WAD, u256size])⟩

/-- C9 counterexample: at `c = 2^255`, `d = 1` the product `c · 10^18`
overflows 256 bits, the function returns 0, and the exact quotient of the
claim is the non-zero `2^255 · 10^18`. -/
theorem hf_wad_overflow_counterexample :
    calculate_hf_wad (2 ^ 255) 1 = 0 ∧ 2 ^ 255 * WAD / 1 = 2 ^ 255 * WAD ∧
      2 ^ 255 * WAD ≠ 0 := by
  refine ⟨?_, by norm_num, by norm_num [WAD]⟩
  norm_num [calculate_hf_wad, WAD, u256size]

/-- C10 (amended).  `price_deviation_exceeds_bps` is total: a zero old price
yields true; for a non-zero old price the result compares the threshold with
`|new - old| · 10000 / old` computed with the product wrapping modulo
`2^256`, which is the exact integer-division formula whenever the product
does not overflow.  A zero staged snapshot price whose asset has a current
price always makes `is_price_stale` true. -/
theorem price_deviation_spec (old_price new_price thr : Nat) (s : StagedLiquidation)
    (cur : List (Address × Nat)) (a : Address) :
    (old_price = 0 → price_deviation_exceeds_bps old_price new_price thr = true) ∧
    (old_price ≠ 0 →
      (price_deviation_exceeds_bps old_price new_price thr = true ↔
        thr < (if old_price < new_price then new_price - old_price
                else old_price - new_price) * 10000 % u256size / old_price)) ∧
    (old_price ≠ 0 →
      (if old_price < new_price then new_price - old_price
        else old_price - new_price) * 10000 < u256size →
      (price_deviation_exceeds_bps old_price new_price thr = true ↔
        thr < (if old_price < new_price then new_price - old_price
                else old_price - new_price) * 10000 / old_price)) ∧
    ((a, 0) ∈ s.price_snapshot → (∃ q ∈ cur, q.1 = a) →
      s.is_price_stale cur thr = true) := by
  refine ⟨fun h => by simp [price_deviation_exceeds_bps, h],
    fun h => by simp [price_deviation_exceeds_bps, h],
    fun h hlt => by
      by_cases hc : old_price < new_price <;>
        simp only [hc, if_true, if_false] at hlt ⊢ <;>
        simp [price_deviation_exceeds_bps, h, hc, Nat.mod_eq_of_lt hlt],
    fun hmem hq => ?_⟩
  unfold StagedLiquidation.is_price_stale
  rw [List.any_eq_true]
  refine ⟨(a, 0), hmem, ?_⟩
  obtain ⟨q, hqmem, hqa⟩ := hq
  cases hfind : cur.find? fun r => r.1 = (a, (0 : Nat)).1 with
  | none =>
    rw [List.find?_eq_none] at hfind
    exact absurd (by exact_mod_cast hqa) (by simpa using hfind q hqmem)
  | some r =>
    simp only [hfind]
    simp [price_deviation_exceeds_bps]

/-- C10 witness: exercising the exact-division branch — a move from 1000 to
1006 is a 60 bps deviation, above a 50 bps threshold. -/
theorem price_deviation_spec_witness :
    (1000 : Nat) ≠ 0 ∧
      price_deviation_exceeds_bps 1000 1006 50 = true :=
  ⟨by norm_num,
    ((price_deviation_spec 1000 1006 50 wStagedLiq [] 0).2.2.1 (by norm_num)
      (by norm_num [u256size])).mpr (by norm_num)⟩

/-- C10 counterexample: at `old = 1`, `new = 2^255 + 1`, threshold 0 the
product `|new - old| · 10000` wraps to 0 modulo `2^256`, so the function
returns false although the claim's exact formula `|new - old| · 10000 / old`
is far above the threshold. -/
theorem price_deviation_overflow_counterexample :
    price_deviation_exceeds_bps 1 (2 ^ 255 + 1) 0 = false ∧
      0 < (2 ^ 255 + 1 - 1) * 10000 / 1 := by
  constructor
  · norm_num [price_deviation_exceeds_bps, u256size]
  · norm_num

/-- C4.  The debt to cover is `U256::MAX` (the parsed `MAX_AMOUNT` constant)
when the route's expected output covers the whole debt, and the expected
output itself otherwise. -/
theorem debt_to_cover_rule (swap_route : SwapRoute) (max_debt : Nat) :
    calculate_debt_to_cover swap_route max_debt =
      if max_debt ≤ swap_route.expected_output then u256max
      else swap_route.expected_output := by
  have hparse : from_str_radix10 MAX_AMOUNT = some u256max := by rfl
  by_cases h : max_debt ≤ swap_route.expected_output <;>
    simp [calculate_debt_to_cover, h, hparse]

/-- C2 counterexample: `StagedLiquidation::is_valid` checks only the TTL.  At
instant 5 the concrete staged liquidation (TTL until 10, recorded hash 1) is
`is_valid`, yet the current position hash 2 differs from the recorded one —
so `is_valid` does not imply the position state hash is unchanged. -/
theorem staged_is_valid_ignores_position_hash :
    wStagedLiq.is_valid 5 = true ∧ wStagedLiq.is_position_changed 2 = true := by
  constructor <;> rfl

/-- C2 (amended).  `is_valid` alone checks only `now < valid_until`; the
three-part validity of the claim is what `validate_staged` certifies: when
it returns `Valid s`, the user has `s` staged, the TTL has not expired, the
position hash is unchanged, and no snapshot price has drifted beyond the
threshold. -/
theorem validate_staged_valid_conditions (staged : Address → Option StagedLiquidation)
    (user : Address) (current_hash : Nat) (cur : List (Address × Nat))
    (thr now : Nat) (s : StagedLiquidation)
    (h : validate_staged staged user current_hash cur thr now = .Valid s) :
    staged user = some s ∧ now < s.valid_until ∧
      s.is_position_changed current_hash = false ∧
      s.is_price_stale cur thr = false := by
  cases hs : staged user with
  | none => simp [validate_staged, hs] at h
  | some t =>
    simp only [validate_staged, hs] at h
    split_ifs at h with h1 h2 h3
    cases h
    refine ⟨rfl, ?_, ?_, ?_⟩
    · simpa [StagedLiquidation.is_valid] using h1
    · simpa using h2
    · simpa using h3

/-- C2 witness: a concrete stager map on which `validate_staged` returns
`Valid`, with all three conditions checked at instant 5. -/
theorem validate_staged_valid_conditions_witness :
    wStagedMap 7 = some wStagedLiq ∧ 5 < wStagedLiq.valid_until ∧
      wStagedLiq.is_position_changed 1 = false ∧
      wStagedLiq.is_price_stale [(1, 100)] 50 = false :=
  validate_staged_valid_conditions wStagedMap 7 1 [(1, 100)] 50 5 wStagedLiq rfl

/-- C3 counterexample: oracle 1 last updated at Unix second 100 with an
effective (configured) interval of 60 s.  At `now = 100` with a 60 s window
the claim's inequality `now + window ≥ last + effective_interval` holds with
equality, yet `is_update_imminent` returns false — the source compares
strictly. -/
theorem imminent_fails_at_exact_boundary :
    wHeartbeat.last_updates 1 = some (100, 5) ∧
      wHeartbeat.get_effective_interval 1 = some (secsToDur 60) ∧
      secsToDur 100 + secsToDur 60 ≥ secsToDur 100 + secsToDur 60 ∧
      wHeartbeat.is_update_imminent 1 (secsToDur 60) 100 = false := by
  refine ⟨rfl, rfl, le_refl _, ?_⟩
  rfl

/-- C3 (amended).  For an oracle with a recorded last update and an effective
interval of whole seconds, `is_update_imminent(oracle, window)` is true iff
`now + window > last + effective_interval` strictly and the window is
positive (the remaining time saturates at zero once the expected update is
past).  The effective interval is the observed rolling mean when its
whole-second part is positive and the configured staleness otherwise. -/
theorem is_update_imminent_characterization (st : HeartbeatPredictor)
    (oracle : Address) (last blk : Nat) (eff : Nat) (now window : Nat)
    (hlast : st.last_updates oracle = some (last, blk))
    (heff : st.get_effective_interval oracle = some eff)
    (hsec : eff % 1000000000 = 0) (hle : last ≤ now) :
    st.is_update_imminent oracle window now = true ↔
      (secsToDur last + eff < secsToDur now + window ∧ 0 < window) := by
  unfold HeartbeatPredictor.is_update_imminent HeartbeatPredictor.next_update_remaining
  rw [hlast, heff]
  simp only [secsToDur, durAsSecs, decide_eq_true_eq]
  omega

/-- C3 witness: one second of window past the boundary, the update is
imminent. -/
theorem is_update_imminent_characterization_witness :
    wHeartbeat.is_update_imminent 1 1 160 = true ↔
      (secsToDur 100 + secsToDur 60 < secsToDur 160 + 1 ∧ 0 < 1) :=
  is_update_imminent_characterization wHeartbeat 1 100 5 (secsToDur 60) 160 1
    rfl rfl (by norm_num [secsToDur]) (by norm_num)

/-- Filtering out one user's positions leaves membership of every other user
unchanged and removes that user. -/
theorem any_user_filter (l : List TrackedPosition) (u u' : Address) :
    ((l.filter fun p => p.user ≠ u').any fun p => p.user = u) =
      ((l.any fun p => p.user = u) && !(decide (u = u'))) := by
  induction l with
  | nil => simp
  | cons p t ih =>
    rw [List.filter_cons]
    by_cases h1 : p.user = u'
    · rw [if_neg (by simp [h1]), ih]
      by_cases h2 : p.user = u
      · have huu : u = u' := h2 ▸ h1
        simp [List.any_cons, huu]
      · simp [List.any_cons, h2]
    · rw [if_pos (by simp [h1]), List.any_cons, List.any_cons, ih]
      by_cases h2 : p.user = u
      · have huu : ¬ u = u' := fun h => h1 (h2.trans h)
        simp [h2, huu]
      · simp [h2]

/-- For distinct users, dropping one user's entries does not change whether
the other occurs. -/
theorem exists_user_filter_iff (l : List TrackedPosition) (u u' : Address)
    (h : ¬ u = u') :
    (∃ x ∈ l, ¬x.user = u' ∧ x.user = u) ↔ ∃ x ∈ l, x.user = u := by
  constructor
  · rintro ⟨x, hx, -, hxu⟩
    exact ⟨x, hx, hxu⟩
  · rintro ⟨x, hx, hxu⟩
    exact ⟨x, hx, fun hh => h (hxu ▸ hh), hxu⟩

/-- `update_reverse_indices` touches only the reverse indices, so the tier
membership count is unchanged. -/
theorem tierCount_update_reverse_indices (st : TieredPositionTracker)
    (pos : TrackedPosition) (u : Address) :
    tierCount (st.update_reverse_indices pos) u = tierCount st u := rfl

/-- `remove` zeroes the removed user's tier count and leaves every other
user's count unchanged. -/
theorem tierCount_remove (st : TieredPositionTracker) (u' u : Address) :
    tierCount (st.remove u') u = if u = u' then 0 else tierCount st u := by
  unfold tierCount TieredPositionTracker.remove
  rw [any_user_filter]
  by_cases h : u = u' <;> simp [h]

/-- `upsert` leaves the position's user in exactly one tier store and every
other user's count unchanged. -/
theorem tierCount_upsert (st : TieredPositionTracker) (pos : TrackedPosition)
    (u : Address) :
    tierCount (st.upsert pos) u = if u = pos.user then 1 else tierCount st u := by
  cases htier : pos.tier
  case Critical =>
    by_cases hu : u = pos.user
    · subst hu
      simp only [TieredPositionTracker.upsert, htier]
      split_ifs with hlen <;>
        simp [tierCount, TieredPositionTracker.update_reverse_indices,
          TieredPositionTracker.remove, mapInsert, any_user_filter, List.any_append]
    · have hu2 : ¬ pos.user = u := fun h => hu h.symm
      simp only [TieredPositionTracker.upsert, htier]
      split_ifs with hlen <;>
        (simp [tierCount, TieredPositionTracker.update_reverse_indices,
          TieredPositionTracker.remove, mapInsert, any_user_filter, List.any_append,
          hu, hu2]
         exact if_congr (exists_user_filter_iff st.critical u pos.user hu) rfl rfl)
  case Hot =>
    by_cases hu : u = pos.user
    · subst hu
      simp [TieredPositionTracker.upsert, htier, tierCount,
        TieredPositionTracker.update_reverse_indices, TieredPositionTracker.remove,
        mapInsert, any_user_filter]
    · have hu2 : ¬ pos.user = u := fun h => hu h.symm
      simp [TieredPositionTracker.upsert, htier, tierCount,
        TieredPositionTracker.update_reverse_indices, TieredPositionTracker.remove,
        mapInsert, any_user_filter, hu, hu2]
      exact if_congr (exists_user_filter_iff st.critical u pos.user hu) rfl rfl
  case Warm =>
    by_cases hu : u = pos.user
    · subst hu
      simp [TieredPositionTracker.upsert, htier, tierCount,
        TieredPositionTracker.update_reverse_indices, TieredPositionTracker.remove,
        mapInsert, any_user_filter]
    · have hu2 : ¬ pos.user = u := fun h => hu h.symm
      simp [TieredPositionTracker.upsert, htier, tierCount,
        TieredPositionTracker.update_reverse_indices, TieredPositionTracker.remove,
        mapInsert, any_user_filter, hu, hu2]
      exact if_congr (exists_user_filter_iff st.critical u pos.user hu) rfl rfl
  case Cold =>
    by_cases hu : u = pos.user
    · subst hu
      simp [TieredPositionTracker.upsert, htier, tierCount,
        TieredPositionTracker.update_reverse_indices, TieredPositionTracker.remove,
        mapInsert, any_user_filter]
    · have hu2 : ¬ pos.user = u := fun h => hu h.symm
      simp [TieredPositionTracker.upsert, htier, tierCount,
        TieredPositionTracker.update_reverse_indices, TieredPositionTracker.remove,
        mapInsert, any_user_filter, hu, hu2]
      exact if_congr (exists_user_filter_iff st.critical u pos.user hu) rfl rfl

/-- `re_tier` preserves the at-most-one-tier property: it is the identity or
an `upsert` of the updated snapshot. -/
theorem tierCount_re_tier_le (cfg : TierConfig) (st : TieredPositionTracker)
    (u' : Address) (hf d : ℚ) (u : Address)
    (h : ∀ v, tierCount st v ≤ 1) : tierCount (st.re_tier cfg u' hf d) u ≤ 1 := by
  simp only [TieredPositionTracker.re_tier]
  split_ifs with h1
  · exact h u
  · cases hget : st.get u' with
    | none => exact h u
    | some oldp =>
      rw [tierCount_upsert]
      split_ifs with h2
      · exact le_refl 1
      · exact h u

/-- C8.  After any sequence of `upsert`, `remove` and `re_tier` operations
starting from the empty tracker, every user is present in at most one of the
four tier stores. -/
theorem tracker_tier_uniqueness (cfg : TierConfig) (ops : List TrackerOp)
    (u : Address) : tierCount (runOps cfg ops) u ≤ 1 := by
  have main : ∀ (l : List TrackerOp) (st : TieredPositionTracker),
      (∀ v, tierCount st v ≤ 1) →
      ∀ v, tierCount (l.foldl (applyOp cfg) st) v ≤ 1 := by
    intro l
    induction l with
    | nil => intro st h v; exact h v
    | cons op rest ih =>
      intro st h v
      refine ih _ ?_ v
      intro w
      cases op with
      | upsert p =>
        show tierCount (st.upsert p) w ≤ 1
        rw [tierCount_upsert]
        split_ifs with hw
        · exact le_refl 1
        · exact h w
      | remove u2 =>
        show tierCount (st.remove u2) w ≤ 1
        rw [tierCount_remove]
        split_ifs with hw
        · exact Nat.zero_le 1
        · exact h w
      | re_tier u2 hf d => exact tierCount_re_tier_le cfg st u2 hf d w h
  refine main ops TieredPositionTracker.new ?_ u
  intro v
  simp [tierCount, TieredPositionTracker.new]

/-- C7.  An `upsert` of a Critical-tier position for a user not already in
the Critical buffer: when the buffer holds exactly 64 positions the new one
is stored in the Hot map (not discarded) and the buffer is unchanged; when
it holds fewer than 64, the new one is appended to the buffer. -/
theorem upsert_critical_overflow (st : TieredPositionTracker)
    (pos : TrackedPosition) (htier : pos.tier = .Critical)
    (hnot : ∀ p ∈ st.critical, p.user ≠ pos.user) :
    (st.critical.length = MAX_CRITICAL_POSITIONS →
      (st.upsert pos).hot pos.user = some pos ∧
        (st.upsert pos).critical = st.critical) ∧
    (st.critical.length < MAX_CRITICAL_POSITIONS →
      (st.upsert pos).critical = st.critical ++ [pos]) := by
  have hfilter : (st.critical.filter fun p => p.user ≠ pos.user) = st.critical := by
    rw [List.filter_eq_self]
    intro p hp
    simpa using hnot p hp
  have hcrit1 : ((st.remove pos.user).update_reverse_indices pos).critical
      = st.critical := by
    simp only [TieredPositionTracker.update_reverse_indices,
      TieredPositionTracker.remove]
    exact hfilter
  constructor
  · intro hlen
    have hnotlt : ¬ ((st.remove pos.user).update_reverse_indices pos).critical.length
        < MAX_CRITICAL_POSITIONS := by
      rw [hcrit1, hlen]
      exact lt_irrefl _
    constructor
    · simp only [TieredPositionTracker.upsert, htier]
      rw [if_neg hnotlt]
      simp [mapInsert]
    · simp only [TieredPositionTracker.upsert, htier]
      rw [if_neg hnotlt]
      exact hcrit1
  · intro hlen
    have hlt : ((st.remove pos.user).update_reverse_indices pos).critical.length
        < MAX_CRITICAL_POSITIONS := by
      rw [hcrit1]
      exact hlen
    simp only [TieredPositionTracker.upsert, htier]
    rw [if_pos hlt, hcrit1]

/-- C7 witness: a concrete tracker whose Critical buffer holds 64 positions
receives a 65th Critical position — it lands in the Hot map and the buffer
is untouched. -/
theorem upsert_critical_overflow_witness :
    (wFullTracker.upsert wNewCritical).hot 100 = some wNewCritical ∧
      (wFullTracker.upsert wNewCritical).critical = wFullTracker.critical :=
  (upsert_critical_overflow wFullTracker wNewCritical rfl (by decide)).1 (by decide)

/-- `estimate_hf` sums, over the supplied price changes, the first matching
coefficient times the percentage change, on top of the base HF. -/
theorem estimate_hf_eq_sum (sens : PositionSensitivity)
    (changes : List (Address × ℚ)) :
    sens.estimate_hf changes =
      sens.base_hf + (changes.map fun p => coeffOf sens p.1 * p.2).sum := by
  suffices haux : ∀ (l : List (Address × ℚ)) (b : ℚ),
      l.foldl (fun hf p =>
        match sens.sensitivities.find? fun q => q.1 = p.1 with
        | some q => hf + q.2 * p.2
        | none => hf) b = b + (l.map fun p => coeffOf sens p.1 * p.2).sum by
    exact haux changes sens.base_hf
  intro l
  induction l with
  | nil => intro b; simp
  | cons c t ih =>
    intro b
    rw [List.foldl_cons, ih, List.map_cons, List.sum_cons]
    unfold coeffOf
    cases hf : sens.sensitivities.find? fun q => q.1 = c.1 with
    | none => ring
    | some q => ring

/-- `addFirst` does not change the key list. -/
theorem keys_addFirst (l : List (Address × ℚ)) (b : Address) (s : ℚ) :
    (addFirst l b s).map Prod.fst = l.map Prod.fst := by
  induction l with
  | nil => rfl
  | cons c t ih =>
    unfold addFirst
    by_cases hc : c.1 = b
    · rw [if_pos hc]
      simp
    · rw [if_neg hc, List.map_cons, List.map_cons, ih]

/-- An asset not among the keys carries zero coefficient mass. -/
theorem coeffMass_eq_zero (l : List (Address × ℚ)) (a : Address)
    (h : a ∉ l.map Prod.fst) : coeffMass l a = 0 := by
  induction l with
  | nil => rfl
  | cons c t ih =>
    rw [List.map_cons, List.mem_cons, not_or] at h
    unfold coeffMass
    rw [List.filter_cons, if_neg (by simpa using fun hc => h.1 hc.symm)]
    exact ih h.2

/-- Adding to the first entry with key `b` adds exactly `s` to the mass at
`b` and nothing elsewhere, provided some entry has key `b`. -/
theorem coeffMass_addFirst (l : List (Address × ℚ)) (b : Address) (s : ℚ)
    (a : Address) (h : (l.any fun q => q.1 = b) = true) :
    coeffMass (addFirst l b s) a = coeffMass l a + if b = a then s else 0 := by
  induction l with
  | nil => simp at h
  | cons c t ih =>
    unfold addFirst coeffMass
    by_cases hc : c.1 = b
    · rw [if_pos hc]
      by_cases hca : c.1 = a
      · have hba : b = a := hc.symm.trans hca
        rw [List.filter_cons, List.filter_cons, if_pos (by simpa using hca),
          if_pos (by simpa using hca), List.map_cons, List.map_cons,
          List.sum_cons, List.sum_cons, if_pos hba]
        ring
      · have hba : ¬ b = a := fun hh => hca (hc.trans hh)
        rw [List.filter_cons, List.filter_cons, if_neg (by simpa using hca),
          if_neg (by simpa using hca), if_neg hba]
        ring
    · rw [if_neg hc]
      have ht : (t.any fun q => q.1 = b) = true := by
        rw [List.any_cons] at h
        rcases Bool.or_eq_true_iff.mp h with h1 | h1
        · exact absurd (by simpa using h1) hc
        · exact h1
      by_cases hca : c.1 = a
      · rw [List.filter_cons, List.filter_cons, if_pos (by simpa using hca),
          if_pos (by simpa using hca), List.map_cons, List.map_cons,
          List.sum_cons, List.sum_cons]
        have := ih ht
        unfold coeffMass at this
        rw [this]
        ring
      · rw [List.filter_cons, List.filter_cons, if_neg (by simpa using hca),
          if_neg (by simpa using hca)]
        have := ih ht
        unfold coeffMass at this
        rw [this]

/-- Coefficient mass distributes over list append. -/
theorem coeffMass_append (l₁ l₂ : List (Address × ℚ)) (a : Address) :
    coeffMass (l₁ ++ l₂) a = coeffMass l₁ a + coeffMass l₂ a := by
  unfold coeffMass
  rw [List.filter_append, List.map_append, List.sum_append]

/-- One debt-loop step adds exactly the debt coefficient of the claim to the
mass at the debt's asset, merging or pushing as the source does. -/
theorem coeffMass_debtStep (hf total_debt : ℚ) (acc : List (Address × ℚ))
    (d : Address × DebtData) (a : Address) :
    coeffMass (debtStep hf total_debt acc d) a =
      coeffMass acc a +
        if d.1 = a then -hf * d.2.value_usd / total_debt / 100 else 0 := by
  unfold debtStep
  by_cases h : (acc.any fun q => q.1 = d.1) = true
  · rw [if_pos h, coeffMass_addFirst acc d.1 _ a h]
  · rw [if_neg h, coeffMass_append]
    congr 1
    unfold coeffMass
    by_cases hda : d.1 = a
    · rw [if_pos hda]
      simp [List.filter_cons, hda]
    · rw [if_neg hda]
      simp [List.filter_cons, hda]

/-- Folding the debt loop adds the claim's debt contribution for each debt
entry on the asset. -/
theorem coeffMass_foldl_debts (hf total_debt : ℚ)
    (ds : List (Address × DebtData)) (acc : List (Address × ℚ)) (a : Address) :
    coeffMass (ds.foldl (debtStep hf total_debt) acc) a =
      coeffMass acc a +
        ((ds.filter fun d => d.1 = a).map fun d =>
          -hf * d.2.value_usd / total_debt / 100).sum := by
  induction ds generalizing acc with
  | nil => simp
  | cons d t ih =>
    rw [List.foldl_cons, ih, coeffMass_debtStep, List.filter_cons]
    by_cases hda : d.1 = a
    · rw [if_pos hda, if_pos (by simpa using hda), List.map_cons, List.sum_cons]
      ring
    · rw [if_neg hda, if_neg (by simpa using hda)]
      ring

/-- The collateral pass gives asset `a` exactly the claim's collateral
contribution. -/
theorem coeffMass_collSens (coll : List (Address × CollateralData))
    (total_debt : ℚ) (a : Address) :
    coeffMass ((coll.filter fun c => c.2.enabled).map fun c =>
        (c.1, c.2.value_usd * c.2.lt_decimal / total_debt / 100)) a =
      ((coll.filter fun c => c.1 = a ∧ c.2.enabled).map fun c =>
        c.2.value_usd * c.2.lt_decimal / total_debt / 100).sum := by
  induction coll with
  | nil => rfl
  | cons c t ih =>
    rw [List.filter_cons, List.filter_cons]
    by_cases he : c.2.enabled
    · rw [if_pos (by simpa using he), List.map_cons]
      by_cases hca : c.1 = a
      · rw [if_pos (by simp [hca, he])]
        unfold coeffMass
        rw [List.filter_cons, if_pos (by simpa using hca), List.map_cons,
          List.map_cons, List.sum_cons, List.sum_cons]
        have := ih
        unfold coeffMass at this
        rw [this]
      · rw [if_neg (by simp [hca])]
        unfold coeffMass
        rw [List.filter_cons, if_neg (by simpa using hca)]
        exact ih
    · rw [if_neg (by simpa using he), if_neg (by simp [he])]
      exact ih

/-- A key set already containing the debt's asset is preserved by `debtStep`;
a new key is appended.  Either way key distinctness is preserved. -/
theorem keys_debtStep_nodup (hf total_debt : ℚ) (acc : List (Address × ℚ))
    (d : Address × DebtData) (h : (acc.map Prod.fst).Nodup) :
    ((debtStep hf total_debt acc d).map Prod.fst).Nodup := by
  unfold debtStep
  by_cases hany : (acc.any fun q => q.1 = d.1) = true
  · rw [if_pos hany, keys_addFirst]
    exact h
  · rw [if_neg hany, List.map_append]
    rw [List.nodup_append]
    refine ⟨h, List.nodup_singleton _, ?_⟩
    intro x hx hxs
    rw [Bool.not_eq_true, List.any_eq_false] at hany
    obtain ⟨q, hq, hq1⟩ := List.mem_map.mp hx
    simp only [List.map_cons, List.map_nil, List.mem_singleton] at hxs
    exact hany q hq (by simpa [hq1] using hxs)

/-- Folding the whole debt loop preserves key distinctness. -/
theorem keys_foldl_debts_nodup (hf total_debt : ℚ)
    (ds : List (Address × DebtData)) (acc : List (Address × ℚ))
    (h : (acc.map Prod.fst).Nodup) :
    ((ds.foldl (debtStep hf total_debt) acc).map Prod.fst).Nodup := by
  induction ds generalizing acc with
  | nil => exact h
  | cons d t ih =>
    rw [List.foldl_cons]
    exact ih _ (keys_debtStep_nodup hf total_debt acc d h)

/-- With distinct keys, the first-match coefficient equals the total mass. -/
theorem find_coeff_eq_mass (l : List (Address × ℚ)) (a : Address)
    (h : (l.map Prod.fst).Nodup) :
    (match l.find? fun q => q.1 = a with
      | some q => q.2
      | none => 0) = coeffMass l a := by
  induction l with
  | nil => rfl
  | cons c t ih =>
    rw [List.map_cons, List.nodup_cons] at h
    by_cases hc : c.1 = a
    · rw [List.find?_cons_of_pos _ (by simpa using hc)]
      unfold coeffMass
      rw [List.filter_cons, if_pos (by simpa using hc), List.map_cons,
        List.sum_cons]
      have hz : coeffMass t a = 0 := by
        refine coeffMass_eq_zero t a fun hmem => h.1 ?_
        rw [hc]
        exact hmem
      unfold coeffMass at hz
      rw [hz]
      ring
    · rw [List.find?_cons_of_neg _ (by simpa using hc)]
      unfold coeffMass
      rw [List.filter_cons, if_neg (by simpa using hc)]
      exact ih h.2

/-- C5.  The computed sensitivity list is empty when total debt is
non-positive (in particular zero); for positive total debt every asset's
total coefficient is the claimed collateral part `(value · LT) / D / 100`
plus the claimed debt part `-HF · value / D / 100`, an asset on both sides
receiving the sum; with distinct enabled-collateral assets the same holds
for the coefficient `estimate_hf` actually reads; and `estimate_hf` returns
the base HF plus the sum of coefficient times percentage change over the
supplied assets. -/
theorem sensitivity_compute_estimate_spec (pos : TrackedPosition)
    (changes : List (Address × ℚ)) (a : Address) :
    (PositionSensitivity.compute pos).base_hf = pos.health_factor ∧
    (pos.total_debt_usd ≤ 0 →
      (PositionSensitivity.compute pos).sensitivities = []) ∧
    (0 < pos.total_debt_usd →
      coeffMass (PositionSensitivity.compute pos).sensitivities a =
        specCollCoeff pos a + specDebtCoeff pos a) ∧
    (((pos.collaterals.filter fun c => c.2.enabled).map Prod.fst).Nodup →
      0 < pos.total_debt_usd →
      coeffOf (PositionSensitivity.compute pos) a =
        specCollCoeff pos a + specDebtCoeff pos a) ∧
    ((PositionSensitivity.compute pos).estimate_hf changes =
      pos.health_factor +
        (changes.map fun p => coeffOf (PositionSensitivity.compute pos) p.1 * p.2).sum) := by
  have hbase : (PositionSensitivity.compute pos).base_hf = pos.health_factor := by
    simp only [PositionSensitivity.compute]
    split_ifs <;> rfl
  have hempty : pos.total_debt_usd ≤ 0 →
      (PositionSensitivity.compute pos).sensitivities = [] := by
    intro h
    simp only [PositionSensitivity.compute]
    rw [if_pos h]
  have hsens : 0 < pos.total_debt_usd →
      (PositionSensitivity.compute pos).sensitivities =
        pos.debts.foldl (debtStep pos.health_factor pos.total_debt_usd)
          ((pos.collaterals.filter fun c => c.2.enabled).map fun c =>
            (c.1, c.2.value_usd * c.2.lt_decimal / pos.total_debt_usd / 100)) := by
    intro h
    simp only [PositionSensitivity.compute]
    rw [if_neg (not_le.mpr h)]
  have hmass : ∀ b : Address, 0 < pos.total_debt_usd →
      coeffMass (PositionSensitivity.compute pos).sensitivities b =
        specCollCoeff pos b + specDebtCoeff pos b := by
    intro b h
    rw [hsens h, coeffMass_foldl_debts, coeffMass_collSens]
    rfl
  refine ⟨hbase, hempty, hmass a, ?_, ?_⟩
  · intro hnodup hD
    have hkeys : (((pos.collaterals.filter fun c => c.2.enabled).map fun c =>
        (c.1, c.2.value_usd * c.2.lt_decimal / pos.total_debt_usd / 100)).map
          Prod.fst).Nodup := by
      rw [List.map_map]
      exact hnodup
    have hnd : ((PositionSensitivity.compute pos).sensitivities.map Prod.fst).Nodup := by
      rw [hsens hD]
      exact keys_foldl_debts_nodup _ _ _ _ hkeys
    have hfind := find_coeff_eq_mass (PositionSensitivity.compute pos).sensitivities a hnd
    unfold coeffOf
    rw [hfind]
    exact hmass a hD
  · rw [estimate_hf_eq_sum, hbase]

/-- C5 witness: the concrete HF-1.6 position has positive total debt and its
computed coefficient on the collateral asset equals the claim's formula. -/
theorem sensitivity_compute_estimate_spec_witness :
    (0 : ℚ) < wPosition.total_debt_usd ∧
      coeffMass (PositionSensitivity.compute wPosition).sensitivities 1 =
        specCollCoeff wPosition 1 + specDebtCoeff wPosition 1 :=
  ⟨by norm_num [TrackedPosition.total_debt_usd, wPosition, wDebt],
   (sensitivity_compute_estimate_spec wPosition [] 1).2.2.1
     (by norm_num [TrackedPosition.total_debt_usd, wPosition, wDebt])⟩
